import Mathlib

/-!
Verification development for the `FlashKeyStore` module
(`src/keystore/flash.py` of specter-diy).

The Python module is shallowly embedded: the mutable `FlashKeyStore` object
becomes an explicit state record `KS`, flash storage becomes an association
list from path strings to byte strings, and each method becomes a function
`KS → Except Err Unit × KS` returning both the outcome (normal return or the
raised exception) and the post-state.  The external collaborators fixed by
the module (SHA-256, HMAC-SHA256, the ECDSA engine, the authenticated
symmetric cipher, and the BIP-39/BIP-32 library) are a parameter record
`Crypto`; the properties the code relies on (a signature it just produced
parses and verifies, decryption inverts encryption) are collected in
`Crypto.Good`.  Byte strings are lists of naturals.
-/

namespace FlashKS

/-- Byte strings. -/
abbrev Bytes := List Nat

/-- Flash storage under the store's directory: an association list from
path to file contents.  Writing prepends, shadowing older entries. -/
abbrev Storage := List (String × Bytes)

/-- Read a file: first (most recent) entry for the path wins. -/
def Storage.read : Storage → String → Option Bytes
  | [], _ => none
  | (q, d) :: rest, p => if q = p then some d else Storage.read rest p

/-- Write (overwrite) a file. -/
def Storage.write (fs : Storage) (p : String) (d : Bytes) : Storage :=
  (p, d) :: fs

/-- `platform.file_exists`. -/
def file_exists (fs : Storage) (p : String) : Bool :=
  (Storage.read fs p).isSome

/-- Whether the path `q` lies under the directory prefix `dir`. -/
def underDir (dir q : String) : Bool := dir.data.isPrefixOf q.data

/-- The external cryptographic and BIP-39/BIP-32 collaborators used by
`keystore/flash.py` (out of scope per the spec, fixed contracts). -/
structure Crypto where
  sha256 : Bytes → Bytes
  hmac : Bytes → Bytes → Bytes
  ecSign : Bytes → Bytes → Bytes
  ecPub : Bytes → Bytes
  ecVerify : Bytes → Bytes → Bytes → Bool
  sigParse : Bytes → Option Bytes
  encrypt : Bytes → Bytes → Bytes
  decrypt : Bytes → Bytes → Bytes
  strip : Bytes → Bytes
  mnemonicValid : Bytes → Bool
  mnemonicToSeed : Bytes → Bytes → Bytes
  rootFromSeed : Bytes → Bytes
  fingerprintOf : Bytes → Bytes
  idkeyOf : Bytes → Bytes
  wordlist : List Bytes

/-- The contracts the module assumes of its collaborators: a freshly
produced signature serializes/parses back, verifies under the matching
public key, and decryption inverts encryption under the same key. -/
structure Crypto.Good (C : Crypto) : Prop where
  parse_sign : ∀ k h, C.sigParse (C.ecSign k h) = some (C.ecSign k h)
  verify_sign : ∀ k h, C.ecVerify (C.ecPub k) (C.ecSign k h) h = true
  decrypt_encrypt : ∀ d k, C.decrypt (C.encrypt d k) k = d

/-- ASCII bytes of the domain-separation tag `"ecdsa"`. -/
def bEcdsa : Bytes := [101, 99, 100, 115, 97]

/-- ASCII bytes of the domain-separation tag `"hmac"`. -/
def bHmac : Bytes := [104, 109, 97, 99]

/-- ASCII bytes of the domain-separation tag `"auth"`. -/
def bAuth : Bytes := [97, 117, 116, 104]

/-- ASCII bytes of the domain-separation tag `"keys"`. -/
def bKeys : Bytes := [107, 101, 121, 115]

/-- ASCII bytes of the domain-separation tag `"aes"`. -/
def bAes : Bytes := [97, 101, 115]

/-- One hex digit character code (`binascii.hexlify` alphabet). -/
def hexDigit (n : Nat) : Nat := if n < 10 then 48 + n else 87 + n

/-- `binascii.hexlify(...)` followed by `.decode()`: the ASCII codes of the
lower-case hex rendering of a byte string. -/
def hexlify (bs : Bytes) : Bytes :=
  bs.foldr (fun b acc => hexDigit (b / 16) :: hexDigit (b % 16) :: acc) []

/-- `int.from_bytes(_, 'big')`. -/
def int_from_bytes_big (bs : Bytes) : Nat :=
  bs.foldl (fun a b => a * 256 + b) 0

/-- The `keys` dict of `FlashKeyStore` after `load_secret` has run: the
base entries are always present, the PIN-bound entries only after an
unlock with a PIN. -/
structure Keys where
  secret : Bytes
  ecdsa : Bytes
  hmacKey : Bytes
  auth : Bytes
  pin_aes : Option Bytes
  pin_hmac : Option Bytes
  pin_ecdsa : Option Bytes
  deriving DecidableEq, Repr

/-- `derive_keys(secret, pin=None)` from `keystore/flash.py`: domain
separated SHA-256 derivations; the `ec.PrivateKey` wrapper is represented
by the raw private-key bytes. -/
def derive_keys (C : Crypto) (secret : Bytes) (pin : Option Bytes) : Keys :=
  let base : Keys :=
    { secret := secret
      ecdsa := C.sha256 (bEcdsa ++ secret)
      hmacKey := C.sha256 (bHmac ++ secret)
      auth := C.sha256 (bAuth ++ secret)
      pin_aes := none, pin_hmac := none, pin_ecdsa := none }
  match pin with
  | none => base
  | some p =>
    let pin_key := C.sha256 (bKeys ++ secret ++ p)
    { base with
      pin_aes := some (C.sha256 (bAes ++ pin_key))
      pin_hmac := some (C.sha256 (bHmac ++ pin_key))
      pin_ecdsa := some (C.sha256 (bEcdsa ++ pin_key)) }

/-- Python `dict.update`: entries of the bundle `b` override those of `k`;
entries absent from `b` (the PIN-bound ones when no PIN was passed) are
kept from `k`. -/
def Keys.update (k b : Keys) : Keys :=
  { secret := b.secret
    ecdsa := b.ecdsa
    hmacKey := b.hmacKey
    auth := b.auth
    pin_aes := match b.pin_aes with | some v => some v | none => k.pin_aes
    pin_hmac := match b.pin_hmac with | some v => some v | none => k.pin_hmac
    pin_ecdsa := match b.pin_ecdsa with | some v => some v | none => k.pin_ecdsa }

/-- The PIN state record persisted in `pin.json`. -/
structure PinState where
  pin : Option Bytes
  pin_attempts_left : Int
  pin_attempts_max : Int
  deriving DecidableEq, Repr

/-- Helper of the modelled `json.dumps`: encode one integer. -/
def encInt : Int → Bytes
  | .ofNat n => [0, n]
  | .negSucc n => [1, n]

/-- Helper of the modelled `json.loads`: decode one integer. -/
def decInt : Bytes → Option (Int × Bytes)
  | 0 :: n :: r => some (Int.ofNat n, r)
  | 1 :: n :: r => some (Int.negSucc n, r)
  | _ => none

/-- Modelled from the spec: `json.dumps` of the PinState record (the JSON
library is an external collaborator).  Any injective serialization with a
partial inverse is a faithful model; field order is irrelevant. -/
def encodeState (s : PinState) : Bytes :=
  encInt s.pin_attempts_left ++ encInt s.pin_attempts_max ++
    (match s.pin with
     | none => [0]
     | some t => 1 :: t)

/-- Modelled from the spec: `json.loads` back into a PinState record;
returns `none` (a raised exception) on anything `encodeState` cannot have
produced. -/
def decodeState (b : Bytes) : Option PinState :=
  match decInt b with
  | none => none
  | some (l, r1) =>
    match decInt r1 with
    | none => none
    | some (m, r2) =>
      match r2 with
      | [0] => some ⟨none, l, m⟩
      | 1 :: t => some ⟨some t, l, m⟩
      | _ => none

/-- The exceptions `keystore/flash.py` can raise.  `other` stands for any
exception that is none of the module's own classes (`OSError` on a missing
file, `KeyError` on a missing dict entry, a signature-parse error, ...). -/
inductive Err where
  | keyStore : Err
  | pin (attemptsLeft attemptsMax : Int) : Err
  | critical : Err
  | other : Err
  deriving DecidableEq, Repr

/-- The mutable state of a `FlashKeyStore` object after `load_secret` has
populated `self.keys` (every claim concerns post-`init` behaviour). -/
structure KS where
  path : String
  fs : Storage
  is_locked_flag : Bool
  mnemonic : Option Bytes
  root : Option Bytes
  fingerprint : Option Bytes
  idkey : Option Bytes
  state : PinState
  keys : Keys
  deriving DecidableEq, Repr

/-- `self.wipe(self.path)` = `platform.delete_recursively(self.path)`:
every file under the store's directory is destroyed. -/
def KS.wipe (ks : KS) : KS :=
  { ks with fs := ks.fs.filter (fun e => !(underDir (ks.path ++ "/") e.1)) }

/-- `is_pin_set` property. -/
def KS.is_pin_set (ks : KS) : Bool := ks.state.pin.isSome

/-- `is_locked` property. -/
def KS.is_locked (ks : KS) : Bool := ks.is_pin_set && ks.is_locked_flag

/-- `lock()`. -/
def KS.lock (ks : KS) : Bool × KS :=
  let ks' := { ks with is_locked_flag := true }
  (ks'.is_locked, ks')

/-- `sign_to_file(data, path, key)`: hash, sign, write the serialized
signature to `path`. -/
def KS.sign_to_file (C : Crypto) (ks : KS) (data : Bytes) (path : String)
    (key : Option Bytes) : Except Err Unit × KS :=
  match (match key with | some k => some k | none => ks.idkey) with
  | none => (.error .keyStore, ks)
  | some k =>
    let h := C.sha256 data
    let sig := C.ecSign k h
    (.ok (), { ks with fs := ks.fs.write path sig })

/-- `verify_file(path, key)`: read `path` and `path+".sig"`, parse the
signature, verify it against the public key; return the contents on
success, `KeyStoreError` on an invalid signature, and a generic exception
on a missing file or unparsable signature. -/
def KS.verify_file (C : Crypto) (ks : KS) (path : String)
    (key : Option Bytes) : Except Err Bytes :=
  match (match key with | some k => some k | none => ks.idkey) with
  | none => .error .keyStore
  | some k =>
    match ks.fs.read path with
    | none => .error .other
    | some data =>
      let h := C.sha256 data
      match ks.fs.read (path ++ ".sig") with
      | none => .error .other
      | some sb =>
        match C.sigParse sb with
        | none => .error .other
        | some sig =>
          if C.ecVerify (C.ecPub k) sig h then .ok data
          else .error .keyStore

/-- `load_state()`: verify `pin.json` and parse it; on ANY exception wipe
the whole directory and raise `CriticalErrorWipeImmediately`. -/
def KS.load_state (C : Crypto) (ks : KS) : Except Err Unit × KS :=
  match KS.verify_file C ks (ks.path ++ "/pin.json") (some ks.keys.ecdsa) with
  | .ok data =>
    match decodeState data with
    | some st => (.ok (), { ks with state := st })
    | none => (.error .critical, ks.wipe)
  | .error _ => (.error .critical, ks.wipe)

/-- `save_state()`: serialize the PIN state, write it, sign it, then
re-run `load_state` as a self-check. -/
def KS.save_state (C : Crypto) (ks : KS) : Except Err Unit × KS :=
  let data := encodeState ks.state
  let ks1 := { ks with fs := ks.fs.write (ks.path ++ "/pin.json") data }
  match KS.sign_to_file C ks1 data (ks.path ++ "/pin.json.sig")
      (some ks1.keys.ecdsa) with
  | (.error e, ks2) => (.error e, ks2)
  | (.ok _, ks2) => KS.load_state C ks2

/-- `unlock(pin)`: decrement the attempt counter and persist it, wipe if
no attempts remain, otherwise compare the hex HMAC tag; on a match reset
the counter, unlock, persist, and merge the PIN-bound key bundle. -/
def KS.unlock (C : Crypto) (ks : KS) (pin : Bytes) : Except Err Unit × KS :=
  let ks0 := { ks with state :=
    { ks.state with pin_attempts_left := ks.state.pin_attempts_left - 1 } }
  match KS.save_state C ks0 with
  | (.error e, ks1) => (.error e, ks1)
  | (.ok _, ks1) =>
    if ks1.state.pin_attempts_left ≤ 0 then
      (.error .critical, ks1.wipe)
    else
      let pin_hmac := hexlify (C.hmac ks1.keys.hmacKey pin)
      if some pin_hmac ≠ ks1.state.pin then
        (.error (.pin ks1.state.pin_attempts_left ks1.state.pin_attempts_max),
         ks1)
      else
        let ks2 := { ks1 with
          state := { ks1.state with
            pin_attempts_left := ks1.state.pin_attempts_max }
          is_locked_flag := false }
        match KS.save_state C ks2 with
        | (.error e, ks3) => (.error e, ks3)
        | (.ok _, ks3) =>
          (.ok (), { ks3 with
            keys := ks3.keys.update
              (derive_keys C ks3.keys.secret (some pin)) })

/-- `unset_pin()`. -/
def KS.unset_pin (C : Crypto) (ks : KS) : Except Err Unit × KS :=
  KS.save_state C { ks with state := { ks.state with pin := none } }

/-- `set_pin(pin)`: store the hex HMAC tag of the PIN, persist, then
unlock with it. -/
def KS.set_pin (C : Crypto) (ks : KS) (pin : Bytes) : Except Err Unit × KS :=
  let ks0 := { ks with state := { ks.state with
    pin := some (hexlify (C.hmac ks.keys.hmacKey pin)) } }
  match KS.save_state C ks0 with
  | (.error e, ks1) => (.error e, ks1)
  | (.ok _, ks1) => KS.unlock C ks1 pin

/-- `load_mnemonic(mnemonic, password)`: strip and validate the incoming
mnemonic (note: `self.mnemonic` is assigned before the validity check),
then derive the seed, root key, fingerprint and id key. -/
def KS.load_mnemonic (C : Crypto) (ks : KS) (mnemonic : Option Bytes)
    (password : Bytes) : Except Err Unit × KS :=
  let step : Except Err Unit × KS :=
    match mnemonic with
    | some mn =>
      let ks1 := { ks with mnemonic := some (C.strip mn) }
      if C.mnemonicValid (C.strip mn) then (.ok (), ks1)
      else (.error .keyStore, ks1)
    | none => (.ok (), ks)
  match step with
  | (.error e, ks1) => (.error e, ks1)
  | (.ok _, ks1) =>
    match ks1.mnemonic with
    | none => (.error .other, ks1)
    | some mn =>
      let seed := C.mnemonicToSeed mn password
      let root := C.rootFromSeed seed
      (.ok (), { ks1 with
        root := some root
        fingerprint := some (C.fingerprintOf root)
        idkey := some (C.idkeyOf root) })

/-- `load()`: the reckless vault read, with `self.keys["pin_ecdsa"]` and
`self.keys["pin_aes"]` dict accesses modelled as raising a generic
exception when absent. -/
def KS.load (C : Crypto) (ks : KS) : Except Err Unit × KS :=
  if ks.is_locked then (.error .keyStore, ks)
  else if !(file_exists ks.fs (ks.path ++ "/reckless")) then
    (.error .keyStore, ks)
  else
    match ks.keys.pin_ecdsa with
    | none => (.error .other, ks)
    | some vk =>
      match KS.verify_file C ks (ks.path ++ "/reckless") (some vk) with
      | .error e => (.error e, ks)
      | .ok data =>
        match ks.keys.pin_aes with
        | none => (.error .other, ks)
        | some ak => KS.load_mnemonic C ks (some (C.decrypt data ak)) []

/-- `save()`: the reckless vault write followed by a reload self-check. -/
def KS.save (C : Crypto) (ks : KS) : Except Err Unit × KS :=
  if ks.is_locked then (.error .keyStore, ks)
  else
    match ks.mnemonic with
    | none => (.error .keyStore, ks)
    | some mn =>
      match ks.keys.pin_aes with
      | none => (.error .other, ks)
      | some ak =>
        let ct := C.encrypt mn ak
        let ks1 := { ks with fs := ks.fs.write (ks.path ++ "/reckless") ct }
        match ks1.keys.pin_ecdsa with
        | none => (.error .other, ks1)
        | some sk =>
          match KS.sign_to_file C ks1 ct (ks1.path ++ "/reckless.sig")
              (some sk) with
          | (.error e, ks2) => (.error e, ks2)
          | (.ok _, ks2) => KS.load C ks2

/-- `change_pin(old_pin, new_pin)`: unlock with the old PIN, recover the
reckless blob under the old PIN-bound keys if present, set the new PIN,
and re-encrypt and re-sign the blob under the new PIN-bound keys. -/
def KS.change_pin (C : Crypto) (ks : KS) (old_pin new_pin : Bytes) :
    Except Err Unit × KS :=
  match KS.unlock C ks old_pin with
  | (.error e, ks1) => (.error e, ks1)
  | (.ok _, ks1) =>
    let dataRes : Except Err (Option Bytes) :=
      if file_exists ks1.fs (ks1.path ++ "/reckless") then
        match ks1.keys.pin_ecdsa with
        | none => .error .other
        | some vk =>
          match KS.verify_file C ks1 (ks1.path ++ "/reckless") (some vk) with
          | .error e => .error e
          | .ok d =>
            match ks1.keys.pin_aes with
            | none => .error .other
            | some ak => .ok (some (C.decrypt d ak))
      else .ok none
    match dataRes with
    | .error e => (.error e, ks1)
    | .ok data =>
      match KS.set_pin C ks1 new_pin with
      | (.error e, ks2) => (.error e, ks2)
      | (.ok _, ks2) =>
        match data with
        | none => (.ok (), ks2)
        | some d =>
          match ks2.keys.pin_aes with
          | none => (.error .other, ks2)
          | some ak =>
            let ct := C.encrypt d ak
            let ks3 := { ks2 with
              fs := ks2.fs.write (ks2.path ++ "/reckless") ct }
            match ks3.keys.pin_ecdsa with
            | none => (.error .other, ks3)
            | some sk =>
              match KS.sign_to_file C ks3 ct (ks3.path ++ "/reckless.sig")
                  (some sk) with
              | (.error e, ks4) => (.error e, ks4)
              | (.ok _, ks4) => (.ok (), ks4)

/-- `get_auth_word(pin_part)`: the anti-phishing word. -/
def KS.get_auth_word (C : Crypto) (ks : KS) (pin_part : Bytes) : Bytes :=
  let h := C.hmac ks.keys.auth pin_part
  C.wordlist.getD (int_from_bytes_big (h.take 2) % C.wordlist.length) []

/-- Iterated `unlock` calls: `unlockSeq C ks pins k` is the store after
`k` calls, the `j`-th call entering PIN `pins j`. -/
def unlockSeq (C : Crypto) (ks : KS) (pins : Nat → Bytes) :
    Nat → Except Err Unit × KS
  | 0 => (.ok (), ks)
  | n + 1 => KS.unlock C (unlockSeq C ks pins n).2 (pins n)

/-- The two storage writes `save_state` performs, as one function: the
serialized PIN state to `pin.json` and its signature to `pin.json.sig`. -/
def persist (C : Crypto) (p : String) (sk : Bytes) (st : PinState)
    (fs : Storage) : Storage :=
  Storage.write (Storage.write fs (p ++ "/pin.json") (encodeState st))
    (p ++ "/pin.json.sig") (C.ecSign sk (C.sha256 (encodeState st)))

/-- The intermediate `pin_key = SHA256("keys" || secret || pin)` of
`derive_keys`. -/
def pinKey (C : Crypto) (secret pin : Bytes) : Bytes :=
  C.sha256 (bKeys ++ secret ++ pin)

/-- The PIN-bound symmetric key `SHA256("aes" || pin_key)`. -/
def pinAes (C : Crypto) (secret pin : Bytes) : Bytes :=
  C.sha256 (bAes ++ pinKey C secret pin)

/-- The PIN-bound signing key `SHA256("ecdsa" || pin_key)`. -/
def pinEc (C : Crypto) (secret pin : Bytes) : Bytes :=
  C.sha256 (bEcdsa ++ pinKey C secret pin)

/-- A concrete, executable instance of the collaborator record for
witness evaluation: a tagging "hash", equality-checked "signatures",
prepend-the-key "encryption". -/
def toyCrypto : Crypto where
  sha256 := fun b => 2 :: b
  hmac := fun k m => 3 :: (k ++ m)
  ecSign := fun k h => k ++ 99 :: h
  ecPub := fun k => k
  ecVerify := fun p s h => s == p ++ 99 :: h
  sigParse := fun s => some s
  encrypt := fun d k => k ++ d
  decrypt := fun c k => c.drop k.length
  strip := fun m => m
  mnemonicValid := fun _ => true
  mnemonicToSeed := fun m _ => m
  rootFromSeed := fun s => s
  fingerprintOf := fun r => r
  idkeyOf := fun r => r
  wordlist := (List.range 2048).map (fun i => [i])

/-- A collaborator record whose signature verification always fails. -/
def toyBadCrypto : Crypto := { toyCrypto with ecVerify := fun _ _ _ => false }

/-- Concrete base key bundle for the secret `[9]`. -/
def keys0 : Keys :=
  { secret := [9]
    ecdsa := toyCrypto.sha256 (bEcdsa ++ [9])
    hmacKey := toyCrypto.sha256 (bHmac ++ [9])
    auth := toyCrypto.sha256 (bAuth ++ [9])
    pin_aes := none, pin_hmac := none, pin_ecdsa := none }

/-- Stored hex tag of the PIN `[1, 2]` under `keys0`. -/
def tag0 : Bytes := hexlify (toyCrypto.hmac keys0.hmacKey [1, 2])

/-- A concrete locked store with PIN `[1, 2]` configured, 3 attempts. -/
def ks0 : KS :=
  { path := "/f"
    fs := []
    is_locked_flag := true
    mnemonic := none, root := none, fingerprint := none, idkey := none
    state := { pin := some tag0, pin_attempts_left := 3, pin_attempts_max := 3 }
    keys := keys0 }

/-- A store whose reckless blob carries an invalid signature. -/
def ksC1 : KS :=
  { path := "/f"
    fs := [("/f/reckless", [1]), ("/f/reckless.sig", [0])]
    is_locked_flag := false
    mnemonic := none, root := none, fingerprint := none, idkey := none
    state := { pin := some tag0, pin_attempts_left := 3, pin_attempts_max := 3 }
    keys := { keys0 with
      pin_aes := some [7], pin_hmac := some [6], pin_ecdsa := some [5] } }

/-- Concrete two-attempt store for the exhaustion witnesses. -/
def ks2w : KS :=
  { ks0 with state :=
    { pin := some tag0, pin_attempts_left := 2, pin_attempts_max := 2 } }

/-- Concrete two-attempt store with no PIN configured. -/
def ksNoPin : KS :=
  { ks0 with state :=
    { pin := none, pin_attempts_left := 2, pin_attempts_max := 2 } }

/-- A concrete store holding a reckless blob for the PIN `[1, 2]` and the
mnemonic `[8, 8]`, used by the PIN-change witness. -/
def ksCp : KS :=
  { path := "/f"
    fs := [("/f/reckless", toyCrypto.encrypt [8, 8] (pinAes toyCrypto [9] [1, 2])),
           ("/f/reckless.sig",
            toyCrypto.ecSign (pinEc toyCrypto [9] [1, 2])
              (toyCrypto.sha256
                (toyCrypto.encrypt [8, 8] (pinAes toyCrypto [9] [1, 2]))))]
    is_locked_flag := true
    mnemonic := none, root := none, fingerprint := none, idkey := none
    state := { pin := some tag0, pin_attempts_left := 3, pin_attempts_max := 3 }
    keys := keys0 }

/-! ### Basic lemmas about storage, paths and the state codec -/

theorem Storage.read_write_self (fs : Storage) (p : String) (d : Bytes) :
    (fs.write p d).read p = some d := by
  simp [Storage.write, Storage.read]

theorem Storage.read_write_ne (fs : Storage) (p q : String) (d : Bytes)
    (h : p ≠ q) : (fs.write p d).read q = fs.read q := by
  simp [Storage.write, Storage.read, h]

theorem append_ne (p : String) {a b : String} (h : a ≠ b) :
    p ++ a ≠ p ++ b := by
  intro he
  apply h
  have hd : p.data ++ a.data = p.data ++ b.data := by
    have := congrArg String.data he
    simpa [String.data_append] using this
  exact String.ext (List.append_cancel_left hd)

theorem pj_sig_eq (p : String) :
    (p ++ "/pin.json") ++ ".sig" = p ++ "/pin.json.sig" := by
  rw [String.append_assoc]; rfl

theorem rk_sig_eq (p : String) :
    (p ++ "/reckless") ++ ".sig" = p ++ "/reckless.sig" := by
  rw [String.append_assoc]; rfl

theorem decode_encode (s : PinState) :
    decodeState (encodeState s) = some s := by
  obtain ⟨p, l, m⟩ := s
  cases l <;> cases m <;> cases p <;> rfl

theorem read_persist_pj (C : Crypto) (p : String) (sk : Bytes)
    (st : PinState) (fs : Storage) :
    (persist C p sk st fs).read (p ++ "/pin.json") =
      some (encodeState st) := by
  rw [persist, Storage.read_write_ne _ _ _ _ (append_ne p (by decide)),
    Storage.read_write_self]

theorem read_persist_pjs (C : Crypto) (p : String) (sk : Bytes)
    (st : PinState) (fs : Storage) :
    (persist C p sk st fs).read (p ++ "/pin.json.sig") =
      some (C.ecSign sk (C.sha256 (encodeState st))) := by
  rw [persist, Storage.read_write_self]

theorem read_persist_other (C : Crypto) (p : String) (sk : Bytes)
    (st : PinState) (fs : Storage) (s : String)
    (h1 : s ≠ "/pin.json") (h2 : s ≠ "/pin.json.sig") :
    (persist C p sk st fs).read (p ++ s) = fs.read (p ++ s) := by
  rw [persist, Storage.read_write_ne _ _ _ _ (append_ne p (fun h => h2 h.symm)),
    Storage.read_write_ne _ _ _ _ (append_ne p (fun h => h1 h.symm))]

theorem read_filter_none (fs : Storage) (p : String → Bool) (q : String)
    (hq : p q = true) :
    Storage.read (fs.filter (fun e => !(p e.1))) q = none := by
  induction fs with
  | nil => rfl
  | cons a rest ih =>
    by_cases hpa : p a.1
    · simp [List.filter, hpa, ih]
    · have : a.1 ≠ q := fun h => hpa (h ▸ hq)
      simp [List.filter, hpa, Storage.read, this, ih]

theorem read_wipe (ks : KS) (q : String)
    (h : underDir (ks.path ++ "/") q = true) :
    Storage.read (KS.wipe ks).fs q = none := by
  unfold KS.wipe
  exact read_filter_none ks.fs (fun s => underDir (ks.path ++ "/") s) q h

/-! ### Characterization of `save_state` and `unlock` -/

theorem save_state_good {C : Crypto} (hC : C.Good) (ks : KS) :
    KS.save_state C ks =
      (.ok (), { ks with fs := persist C ks.path ks.keys.ecdsa ks.state ks.fs }) := by
  unfold KS.save_state KS.sign_to_file KS.load_state KS.verify_file
  simp only []
  rw [pj_sig_eq]
  have hrd : Storage.read
      (Storage.write (Storage.write ks.fs (ks.path ++ "/pin.json")
        (encodeState ks.state)) (ks.path ++ "/pin.json.sig")
        (C.ecSign ks.keys.ecdsa (C.sha256 (encodeState ks.state))))
      (ks.path ++ "/pin.json") = some (encodeState ks.state) :=
    read_persist_pj C ks.path ks.keys.ecdsa ks.state ks.fs
  have hrs : Storage.read
      (Storage.write (Storage.write ks.fs (ks.path ++ "/pin.json")
        (encodeState ks.state)) (ks.path ++ "/pin.json.sig")
        (C.ecSign ks.keys.ecdsa (C.sha256 (encodeState ks.state))))
      (ks.path ++ "/pin.json.sig") =
      some (C.ecSign ks.keys.ecdsa (C.sha256 (encodeState ks.state))) :=
    read_persist_pjs C ks.path ks.keys.ecdsa ks.state ks.fs
  simp only [persist] at hrd hrs
  simp [hrd, hrs, hC.parse_sign, hC.verify_sign, decode_encode, persist]

theorem unlock_wrong_eq {C : Crypto} (hC : C.Good) (ks : KS) (pin : Bytes)
    (hleft : 0 < ks.state.pin_attempts_left - 1)
    (hne : ks.state.pin ≠ some (hexlify (C.hmac ks.keys.hmacKey pin))) :
    KS.unlock C ks pin =
      (.error (.pin (ks.state.pin_attempts_left - 1) ks.state.pin_attempts_max),
       { ks with
          state := { ks.state with
            pin_attempts_left := ks.state.pin_attempts_left - 1 }
          fs := persist C ks.path ks.keys.ecdsa
            { ks.state with
              pin_attempts_left := ks.state.pin_attempts_left - 1 } ks.fs }) := by
  have hle : ¬ (ks.state.pin_attempts_left - 1 ≤ 0) := by omega
  have hne' : some (hexlify (C.hmac ks.keys.hmacKey pin)) ≠ ks.state.pin :=
    fun h => hne h.symm
  unfold KS.unlock
  simp [save_state_good hC, hle, hne']

theorem unlock_correct_eq {C : Crypto} (hC : C.Good) (ks : KS) (pin : Bytes)
    (hleft : 0 < ks.state.pin_attempts_left - 1)
    (hpin : ks.state.pin = some (hexlify (C.hmac ks.keys.hmacKey pin))) :
    KS.unlock C ks pin =
      (.ok (),
       { ks with
          state := { ks.state with
            pin_attempts_left := ks.state.pin_attempts_max }
          is_locked_flag := false
          fs := persist C ks.path ks.keys.ecdsa
              { ks.state with
                pin_attempts_left := ks.state.pin_attempts_max }
              (persist C ks.path ks.keys.ecdsa
                { ks.state with
                  pin_attempts_left := ks.state.pin_attempts_left - 1 } ks.fs)
          keys := ks.keys.update (derive_keys C ks.keys.secret (some pin)) }) := by
  have hle : ¬ (ks.state.pin_attempts_left - 1 ≤ 0) := by omega
  have hp : some (hexlify (C.hmac ks.keys.hmacKey pin)) = ks.state.pin :=
    hpin.symm
  unfold KS.unlock
  simp [save_state_good hC, hle, hp]

theorem unlock_wipe_eq {C : Crypto} (hC : C.Good) (ks : KS) (pin : Bytes)
    (hleft : ks.state.pin_attempts_left - 1 ≤ 0) :
    KS.unlock C ks pin =
      (.error .critical,
       KS.wipe { ks with
          state := { ks.state with
            pin_attempts_left := ks.state.pin_attempts_left - 1 }
          fs := persist C ks.path ks.keys.ecdsa
            { ks.state with
              pin_attempts_left := ks.state.pin_attempts_left - 1 } ks.fs }) := by
  unfold KS.unlock
  simp [save_state_good hC, hleft]

theorem unlockSeq_wrong_inv {C : Crypto} (hC : C.Good) (ks : KS)
    (pins : Nat → Bytes) (N : Nat)
    (hl : ks.state.pin_attempts_left = (N : Int))
    (hne : ∀ j, ks.state.pin ≠ some (hexlify (C.hmac ks.keys.hmacKey (pins j)))) :
    ∀ k, k < N →
      ∃ fs',
        (unlockSeq C ks pins k).2 =
          { ks with
            state := { ks.state with pin_attempts_left := (N : Int) - k }
            fs := fs' } ∧
        (1 ≤ k →
          (unlockSeq C ks pins k).1 =
            .error (.pin ((N : Int) - k) ks.state.pin_attempts_max) ∧
          Storage.read fs' (ks.path ++ "/pin.json") =
            some (encodeState
              { ks.state with pin_attempts_left := (N : Int) - k })) := by
  intro k
  induction k with
  | zero =>
    intro _
    refine ⟨ks.fs, ?_, ?_⟩
    · simp only [unlockSeq, Nat.cast_zero, sub_zero, ← hl]
    · intro h; omega
  | succ k ih =>
    intro hk1
    have hk : k < N := by omega
    obtain ⟨fs', heq, -⟩ := ih hk
    have harith : ((N : Int) - k) - 1 = (N : Int) - ((k + 1 : Nat) : Int) := by
      push_cast; ring
    have hu := unlock_wrong_eq hC
      ({ ks with
          state := { ks.state with pin_attempts_left := (N : Int) - k }
          fs := fs' }) (pins k)
      (by simp only []; omega)
      (by simpa using hne k)
    refine ⟨persist C ks.path ks.keys.ecdsa
      { ks.state with pin_attempts_left := (N : Int) - ((k + 1 : Nat) : Int) }
      fs', ?_, ?_⟩
    · simp only [unlockSeq, heq, hu, harith]
    · intro _
      constructor
      · simp only [unlockSeq, heq, hu, harith]
      · exact read_persist_pj C ks.path ks.keys.ecdsa _ fs'

theorem unlockSeq_exhaustion {C : Crypto} (hC : C.Good) (ks : KS)
    (pins : Nat → Bytes) (N : Nat)
    (hl : ks.state.pin_attempts_left = (N : Int))
    (hne : ∀ j, ks.state.pin ≠ some (hexlify (C.hmac ks.keys.hmacKey (pins j))))
    (hN : 1 ≤ N) :
    (unlockSeq C ks pins N).1 = .error .critical ∧
    ∀ q, underDir (ks.path ++ "/") q = true →
      Storage.read (unlockSeq C ks pins N).2.fs q = none := by
  obtain ⟨n, rfl⟩ : ∃ n, N = n + 1 := ⟨N - 1, by omega⟩
  obtain ⟨fs', heq, -⟩ := unlockSeq_wrong_inv hC ks pins (n + 1) hl hne n
    (by omega)
  have hw := unlock_wipe_eq hC
    ({ ks with
        state := { ks.state with pin_attempts_left := ((n + 1 : Nat) : Int) - n }
        fs := fs' }) (pins n)
    (by simp only []; omega)
  constructor
  · simp only [unlockSeq, heq, hw]
  · intro q hq
    simp only [unlockSeq, heq, hw]
    exact read_wipe _ q hq

/-! ### The claims -/

theorem toyCrypto_good : toyCrypto.Good where
  parse_sign := fun _ _ => rfl
  verify_sign := fun k h => by simp [toyCrypto]
  decrypt_encrypt := fun d k => by simp [toyCrypto]

/-- C6: `derive_keys(secret, pin)` is pure and total and computes exactly
the domain-separated keys: the signing key from `SHA256("ecdsa"||secret)`,
the hmac key `SHA256("hmac"||secret)`, the auth key `SHA256("auth"||secret)`;
with a PIN it additionally computes `pin_key = SHA256("keys"||secret||pin)`
and `pin_aes = SHA256("aes"||pin_key)`, `pin_hmac = SHA256("hmac"||pin_key)`,
and the PIN signing key from `SHA256("ecdsa"||pin_key)`; the three base
fields are identical whether or not a PIN is supplied (and without a PIN
no PIN-bound field is produced). -/
theorem derive_keys_spec (C : Crypto) (secret pin : Bytes) :
    (derive_keys C secret none).ecdsa = C.sha256 (bEcdsa ++ secret) ∧
    (derive_keys C secret none).hmacKey = C.sha256 (bHmac ++ secret) ∧
    (derive_keys C secret none).auth = C.sha256 (bAuth ++ secret) ∧
    (derive_keys C secret (some pin)).pin_aes =
      some (C.sha256 (bAes ++ C.sha256 (bKeys ++ secret ++ pin))) ∧
    (derive_keys C secret (some pin)).pin_hmac =
      some (C.sha256 (bHmac ++ C.sha256 (bKeys ++ secret ++ pin))) ∧
    (derive_keys C secret (some pin)).pin_ecdsa =
      some (C.sha256 (bEcdsa ++ C.sha256 (bKeys ++ secret ++ pin))) ∧
    (derive_keys C secret (some pin)).ecdsa = (derive_keys C secret none).ecdsa ∧
    (derive_keys C secret (some pin)).hmacKey =
      (derive_keys C secret none).hmacKey ∧
    (derive_keys C secret (some pin)).auth = (derive_keys C secret none).auth ∧
    (derive_keys C secret none).pin_aes = none ∧
    (derive_keys C secret none).pin_hmac = none ∧
    (derive_keys C secret none).pin_ecdsa = none :=
  ⟨rfl, rfl, rfl, rfl, rfl, rfl, rfl, rfl, rfl, rfl, rfl, rfl⟩

/-- C8: with a secret loaded the anti-phishing word for a PIN fragment is
the wordlist entry at index `int.from_bytes(HMAC-SHA256(auth, frag)[:2],
big) mod 2048`; it depends only on the auth key and the fragment — not on
the PIN configuration, the lock flag, or anything else in the store. -/
theorem get_auth_word_spec (C : Crypto) (ks ks2 : KS) (frag : Bytes)
    (hlen : C.wordlist.length = 2048)
    (hauth : ks2.keys.auth = ks.keys.auth) :
    KS.get_auth_word C ks frag =
      C.wordlist.getD
        (int_from_bytes_big ((C.hmac ks.keys.auth frag).take 2) % 2048) [] ∧
    KS.get_auth_word C ks2 frag = KS.get_auth_word C ks frag := by
  unfold KS.get_auth_word
  rw [hlen, hauth]
  exact ⟨rfl, rfl⟩

/-- Witness for C8: a store with no PIN configured and unlocked flag gives
the same word as the locked, PIN-configured `ks0`. -/
theorem get_auth_word_spec_witness :
    KS.get_auth_word toyCrypto ks0 [7] =
      toyCrypto.wordlist.getD
        (int_from_bytes_big
          ((toyCrypto.hmac ks0.keys.auth [7]).take 2) % 2048) [] ∧
    KS.get_auth_word toyCrypto
      { ks0 with
        state := { pin := none, pin_attempts_left := 1, pin_attempts_max := 1 }
        is_locked_flag := false } [7] =
      KS.get_auth_word toyCrypto ks0 [7] :=
  get_auth_word_spec toyCrypto ks0
    { ks0 with
      state := { pin := none, pin_attempts_left := 1, pin_attempts_max := 1 }
      is_locked_flag := false } [7]
    (by simp [toyCrypto]) rfl

/-- C2: when `unlock(pin)` is called and the decremented counter is still
positive, the decremented `attempts_left` is persisted to `pin.json`
before the PIN comparison; on an HMAC-tag mismatch it raises `PinError`
carrying the remaining-attempts count and the persisted state keeps the
decremented counter (no rollback). -/
theorem unlock_wrong_pin_decrement_persist {C : Crypto} (hC : C.Good)
    (ks : KS) (pin : Bytes)
    (hleft : 0 < ks.state.pin_attempts_left - 1)
    (hne : ks.state.pin ≠ some (hexlify (C.hmac ks.keys.hmacKey pin))) :
    (KS.unlock C ks pin).1 =
      .error (.pin (ks.state.pin_attempts_left - 1)
        ks.state.pin_attempts_max) ∧
    (KS.unlock C ks pin).2.state.pin_attempts_left =
      ks.state.pin_attempts_left - 1 ∧
    Storage.read (KS.unlock C ks pin).2.fs (ks.path ++ "/pin.json") =
      some (encodeState { ks.state with
        pin_attempts_left := ks.state.pin_attempts_left - 1 }) := by
  rw [unlock_wrong_eq hC ks pin hleft hne]
  exact ⟨rfl, rfl, read_persist_pj _ _ _ _ _⟩

/-- Witness for C2 at the concrete store `ks0` with the wrong PIN `[0]`. -/
theorem unlock_wrong_pin_decrement_persist_witness :
    (KS.unlock toyCrypto ks0 [0]).1 = .error (.pin (3 - 1) 3) ∧
    (KS.unlock toyCrypto ks0 [0]).2.state.pin_attempts_left = 3 - 1 ∧
    Storage.read (KS.unlock toyCrypto ks0 [0]).2.fs ("/f" ++ "/pin.json") =
      some (encodeState
        { pin := some tag0
          pin_attempts_left := 3 - 1
          pin_attempts_max := 3 }) :=
  unlock_wrong_pin_decrement_persist toyCrypto_good ks0 [0]
    (by decide) (by decide)

/-- C4: when `unlock(pin)` is called with the correct PIN and the
decremented counter is still positive, it resets `attempts_left` to
`attempts_max`, clears the locked flag, persists the reset state, and
merges the PIN-bound key bundle derived from the secret and the PIN into
the in-memory keys. -/
theorem unlock_correct_pin_resets {C : Crypto} (hC : C.Good)
    (ks : KS) (pin : Bytes)
    (hleft : 0 < ks.state.pin_attempts_left - 1)
    (hpin : ks.state.pin = some (hexlify (C.hmac ks.keys.hmacKey pin))) :
    (KS.unlock C ks pin).1 = .ok () ∧
    (KS.unlock C ks pin).2.state.pin_attempts_left =
      ks.state.pin_attempts_max ∧
    (KS.unlock C ks pin).2.is_locked_flag = false ∧
    Storage.read (KS.unlock C ks pin).2.fs (ks.path ++ "/pin.json") =
      some (encodeState { ks.state with
        pin_attempts_left := ks.state.pin_attempts_max }) ∧
    (KS.unlock C ks pin).2.keys =
      ks.keys.update (derive_keys C ks.keys.secret (some pin)) := by
  rw [unlock_correct_eq hC ks pin hleft hpin]
  exact ⟨rfl, rfl, rfl, read_persist_pj _ _ _ _ _, rfl⟩

theorem sig_path_ne (p : String) : p ++ ".sig" ≠ p := by
  intro h
  have hlen : (p ++ ".sig").data.length = p.data.length :=
    congrArg (fun s => s.data.length) h
  rw [String.data_append, List.length_append] at hlen
  have h4 : (".sig" : String).data.length = 4 := rfl
  omega

/-- C7: writing a payload and its detached signature and reading it back
under the corresponding key returns the payload unchanged; and whenever
the stored signature does not validate under the expected public key,
`verify_file` fails with the integrity error (`KeyStoreError`) instead of
returning the payload. -/
theorem sign_verify_roundtrip {C : Crypto} (hC : C.Good) (ks : KS)
    (data : Bytes) (p : String) (k : Bytes) :
    (KS.sign_to_file C { ks with fs := ks.fs.write p data } data (p ++ ".sig")
      (some k)).1 = .ok () ∧
    KS.verify_file C
      (KS.sign_to_file C { ks with fs := ks.fs.write p data } data
        (p ++ ".sig") (some k)).2 p (some k) = .ok data ∧
    (∀ d s sg, ks.fs.read p = some d → ks.fs.read (p ++ ".sig") = some s →
      C.sigParse s = some sg →
      C.ecVerify (C.ecPub k) sg (C.sha256 d) = false →
      KS.verify_file C ks p (some k) = .error .keyStore) := by
  refine ⟨rfl, ?_, ?_⟩
  · unfold KS.sign_to_file KS.verify_file
    simp [Storage.read_write_ne _ _ _ _ (sig_path_ne p),
      Storage.read_write_self, hC.parse_sign, hC.verify_sign]
  · intro d s sg hd hs hp hv
    unfold KS.verify_file
    simp [hd, hs, hp, hv]

/-- Witness for C7: round trip of the payload `[5]` at path `/f/w`. -/
theorem sign_verify_roundtrip_witness :
    (KS.sign_to_file toyCrypto { ks0 with fs := ks0.fs.write "/f/w" [5] } [5]
      ("/f/w" ++ ".sig") (some [3])).1 = .ok () ∧
    KS.verify_file toyCrypto
      (KS.sign_to_file toyCrypto { ks0 with fs := ks0.fs.write "/f/w" [5] } [5]
        ("/f/w" ++ ".sig") (some [3])).2 "/f/w" (some [3]) = .ok [5] :=
  ⟨(sign_verify_roundtrip toyCrypto_good ks0 [5] "/f/w" [3]).1,
   (sign_verify_roundtrip toyCrypto_good ks0 [5] "/f/w" [3]).2.1⟩

theorem save_state_allbad {C : Crypto}
    (hparse : ∀ k h, C.sigParse (C.ecSign k h) = some (C.ecSign k h))
    (hver : ∀ pk s h, C.ecVerify pk s h = false) (ks : KS) :
    KS.save_state C ks = (.error .critical,
      KS.wipe { ks with
        fs := persist C ks.path ks.keys.ecdsa ks.state ks.fs }) := by
  unfold KS.save_state KS.sign_to_file KS.load_state KS.verify_file
  simp only []
  rw [pj_sig_eq]
  have hrd := read_persist_pj C ks.path ks.keys.ecdsa ks.state ks.fs
  have hrs := read_persist_pjs C ks.path ks.keys.ecdsa ks.state ks.fs
  simp only [persist] at hrd hrs
  simp [hrd, hrs, hparse, hver, persist]

/-- C10: every persist of the PIN state re-reads and re-verifies the
just-written signed record; if that verification fails, the secret area
is wiped and the fatal error is raised — through `save_state` itself and
through each operation that invokes it (`unset_pin`, `unlock`,
`set_pin`). -/
theorem save_state_selfcheck_wipe {C : Crypto} (ks : KS) (pin : Bytes)
    (hparse : ∀ k h, C.sigParse (C.ecSign k h) = some (C.ecSign k h))
    (hver : ∀ pk s h, C.ecVerify pk s h = false) :
    ((KS.save_state C ks).1 = .error .critical ∧
     ∀ q, underDir (ks.path ++ "/") q = true →
       Storage.read (KS.save_state C ks).2.fs q = none) ∧
    ((KS.unset_pin C ks).1 = .error .critical ∧
     ∀ q, underDir (ks.path ++ "/") q = true →
       Storage.read (KS.unset_pin C ks).2.fs q = none) ∧
    ((KS.unlock C ks pin).1 = .error .critical ∧
     ∀ q, underDir (ks.path ++ "/") q = true →
       Storage.read (KS.unlock C ks pin).2.fs q = none) ∧
    ((KS.set_pin C ks pin).1 = .error .critical ∧
     ∀ q, underDir (ks.path ++ "/") q = true →
       Storage.read (KS.set_pin C ks pin).2.fs q = none) := by
  have hs := save_state_allbad hparse hver
  refine ⟨⟨?_, ?_⟩, ⟨?_, ?_⟩, ⟨?_, ?_⟩, ⟨?_, ?_⟩⟩
  · rw [hs ks]
  · intro q hq; rw [hs ks]; exact read_wipe _ q hq
  · unfold KS.unset_pin; rw [hs _]
  · intro q hq; unfold KS.unset_pin; rw [hs _]; exact read_wipe _ q hq
  · simp [KS.unlock, hs]
  · intro q hq
    simp only [KS.unlock, hs]
    exact read_wipe _ q hq
  · simp [KS.set_pin, hs]
  · intro q hq
    simp only [KS.set_pin, hs]
    exact read_wipe _ q hq

/-- Witness for C10: with an always-failing verifier every state-saving
operation destroys the store. -/
theorem save_state_selfcheck_wipe_witness :
    (KS.save_state toyBadCrypto ks0).1 = .error .critical ∧
    Storage.read (KS.save_state toyBadCrypto ks0).2.fs "/f/pin.json" = none ∧
    (KS.unset_pin toyBadCrypto ks0).1 = .error .critical ∧
    (KS.unlock toyBadCrypto ks0 [0]).1 = .error .critical ∧
    (KS.set_pin toyBadCrypto ks0 [0]).1 = .error .critical := by
  have h := @save_state_selfcheck_wipe toyBadCrypto ks0 [0] (fun _ _ => rfl)
    (fun _ _ _ => rfl)
  exact ⟨h.1.1, h.1.2 "/f/pin.json" (by decide), h.2.1.1, h.2.2.1.1,
    h.2.2.2.1⟩

/-- C1 counterexample: a signature-verification failure while reading the
signed reckless blob is surfaced as the recoverable `KeyStoreError`, the
store is unchanged, and nothing is wiped — so not every signed-record read
failure triggers a wipe with a fatal error. -/
theorem load_reckless_badsig_recoverable_cex :
    (KS.load toyCrypto ksC1).1 = .error .keyStore ∧
    (KS.load toyCrypto ksC1).2 = ksC1 ∧
    Storage.read (KS.load toyCrypto ksC1).2.fs "/f/reckless" = some [1] :=
  ⟨rfl, rfl, rfl⟩

/-- C1 (amended): any failure while reading the signed PIN-state record
wipes the entire secret area and raises the fatal, non-recoverable error;
but a failed read of the signed reckless blob is surfaced to the caller
as the raised (recoverable) exception with the store unchanged and no
wipe. -/
theorem load_state_fail_wipe (C : Crypto) (ks : KS) :
    (KS.load_state C ks).1 = .ok () ∨
    KS.load_state C ks = (.error .critical, ks.wipe) := by
  unfold KS.load_state
  split
  next data hv =>
    split
    next st hd => exact Or.inl rfl
    next hd => exact Or.inr rfl
  next a hv => exact Or.inr rfl

theorem signed_read_failure_policy (C : Crypto) (ks : KS) :
    (∀ e, (KS.load_state C ks).1 = .error e →
      e = .critical ∧ (KS.load_state C ks).2 = ks.wipe ∧
      ∀ q, underDir (ks.path ++ "/") q = true →
        Storage.read (KS.load_state C ks).2.fs q = none) ∧
    (∀ vk e, ks.is_locked = false →
      file_exists ks.fs (ks.path ++ "/reckless") = true →
      ks.keys.pin_ecdsa = some vk →
      KS.verify_file C ks (ks.path ++ "/reckless") (some vk) = .error e →
      KS.load C ks = (.error e, ks)) := by
  constructor
  · intro e he
    rcases load_state_fail_wipe C ks with h | h
    · exact absurd (h.symm.trans he) (by simp)
    · rw [h] at he ⊢
      exact ⟨(Except.error.inj he).symm, rfl, fun q hq => read_wipe ks q hq⟩
  · intro vk e hlk hex hpe hv
    unfold KS.load
    simp [hlk, hex, hpe, hv]

/-- Witness for the amended C1: a missing `pin.json` destroys the store
(fatal), while the bad reckless signature of `ksC1` is recoverable. -/
theorem signed_read_failure_policy_witness :
    (KS.load_state toyCrypto ks0).2 = ks0.wipe ∧
    Storage.read (KS.load_state toyCrypto ks0).2.fs "/f/pin.json" = none ∧
    KS.load toyCrypto ksC1 = (.error .keyStore, ksC1) := by
  have h1 := (signed_read_failure_policy toyCrypto ks0).1 .critical rfl
  have h2 := (signed_read_failure_policy toyCrypto ksC1).2 [5] .keyStore
    rfl (by decide) rfl rfl
  exact ⟨h1.2.1, h1.2.2 "/f/pin.json" (by decide), h2⟩

/-- C3: starting from a configured PIN with `attempts_left = attempts_max
= N`, consecutive wrong-PIN unlocks raise `PinError` reporting
`attempts_left = N - k` after the k-th call (and persist that count) for
every k < N, and trigger the fatal wipe exactly on the N-th call. -/
theorem unlock_attempt_exhaustion {C : Crypto} (hC : C.Good) (ks : KS)
    (pins : Nat → Bytes) (tag : Bytes) (N : Nat)
    (hpin : ks.state.pin = some tag)
    (hne : ∀ j, tag ≠ hexlify (C.hmac ks.keys.hmacKey (pins j)))
    (hl : ks.state.pin_attempts_left = (N : Int))
    (hm : ks.state.pin_attempts_max = (N : Int))
    (hN : 1 ≤ N) :
    (∀ k, 1 ≤ k → k < N →
      (unlockSeq C ks pins k).1 =
        .error (.pin ((N : Int) - k) (N : Int)) ∧
      (unlockSeq C ks pins k).2.state.pin_attempts_left = (N : Int) - k ∧
      Storage.read (unlockSeq C ks pins k).2.fs (ks.path ++ "/pin.json") =
        some (encodeState
          { ks.state with pin_attempts_left := (N : Int) - k })) ∧
    (unlockSeq C ks pins N).1 = .error .critical ∧
    (∀ q, underDir (ks.path ++ "/") q = true →
      Storage.read (unlockSeq C ks pins N).2.fs q = none) := by
  have hne' : ∀ j,
      ks.state.pin ≠ some (hexlify (C.hmac ks.keys.hmacKey (pins j))) := by
    intro j h
    rw [hpin] at h
    exact hne j (Option.some.inj h)
  refine ⟨?_, (unlockSeq_exhaustion hC ks pins N hl hne' hN).1,
    (unlockSeq_exhaustion hC ks pins N hl hne' hN).2⟩
  intro k hk1 hkN
  obtain ⟨fs', heq, hrest⟩ := unlockSeq_wrong_inv hC ks pins N hl hne' k hkN
  obtain ⟨h1, h2⟩ := hrest hk1
  exact ⟨by rw [h1, hm], by rw [heq], by rw [heq]; exact h2⟩

/-- Witness for C3: with `N = 2` and the wrong PIN `[0]`, the first call
reports one attempt left and the second wipes. -/
theorem unlock_attempt_exhaustion_witness :
    ((unlockSeq toyCrypto ks2w (fun _ => [0]) 1).1 =
      .error (.pin ((2 : Int) - (1 : Nat)) 2) ∧
     (unlockSeq toyCrypto ks2w (fun _ => [0]) 1).2.state.pin_attempts_left =
      (2 : Int) - (1 : Nat)) ∧
    (unlockSeq toyCrypto ks2w (fun _ => [0]) 2).1 = .error .critical ∧
    Storage.read (unlockSeq toyCrypto ks2w (fun _ => [0]) 2).2.fs
      "/f/pin.json" = none := by
  have h := unlock_attempt_exhaustion toyCrypto_good ks2w (fun _ => [0])
    tag0 2 rfl
    (fun _ => by
      show tag0 ≠ hexlify (toyCrypto.hmac ks2w.keys.hmacKey [0])
      decide)
    rfl rfl (by decide)
  exact ⟨⟨(h.1 1 (by decide) (by decide)).1, (h.1 1 (by decide) (by decide)).2.1⟩,
    h.2.1, h.2.2 "/f/pin.json" (by decide)⟩

/-- C9: `unlock` never checks whether a PIN is configured: with the
stored verification tag absent, every call (with any PIN) still
decrements `attempts_left`, persists it, and raises `PinError` (an absent
tag never compares equal to a computed hex tag), so `attempts_max`
consecutive calls wipe the device even though no PIN was ever set. -/
theorem unlock_without_pin_set {C : Crypto} (hC : C.Good) (ks : KS)
    (pins : Nat → Bytes) (N : Nat)
    (hpin : ks.state.pin = none)
    (hl : ks.state.pin_attempts_left = (N : Int))
    (hm : ks.state.pin_attempts_max = (N : Int))
    (hN : 1 ≤ N) :
    (∀ k, 1 ≤ k → k < N →
      (unlockSeq C ks pins k).1 =
        .error (.pin ((N : Int) - k) (N : Int)) ∧
      (unlockSeq C ks pins k).2.state.pin_attempts_left = (N : Int) - k ∧
      Storage.read (unlockSeq C ks pins k).2.fs (ks.path ++ "/pin.json") =
        some (encodeState
          { ks.state with pin_attempts_left := (N : Int) - k })) ∧
    (unlockSeq C ks pins N).1 = .error .critical ∧
    (∀ q, underDir (ks.path ++ "/") q = true →
      Storage.read (unlockSeq C ks pins N).2.fs q = none) := by
  have hne' : ∀ j,
      ks.state.pin ≠ some (hexlify (C.hmac ks.keys.hmacKey (pins j))) := by
    intro j h
    rw [hpin] at h
    exact Option.noConfusion h
  refine ⟨?_, (unlockSeq_exhaustion hC ks pins N hl hne' hN).1,
    (unlockSeq_exhaustion hC ks pins N hl hne' hN).2⟩
  intro k hk1 hkN
  obtain ⟨fs', heq, hrest⟩ := unlockSeq_wrong_inv hC ks pins N hl hne' k hkN
  obtain ⟨h1, h2⟩ := hrest hk1
  exact ⟨by rw [h1, hm], by rw [heq], by rw [heq]; exact h2⟩

/-- Witness for C9: two unlock calls on a store with no PIN set — the
first raises `PinError`, the second wipes. -/
theorem unlock_without_pin_set_witness :
    ((unlockSeq toyCrypto ksNoPin (fun _ => [4]) 1).1 =
      .error (.pin ((2 : Int) - (1 : Nat)) 2)) ∧
    (unlockSeq toyCrypto ksNoPin (fun _ => [4]) 2).1 = .error .critical ∧
    Storage.read (unlockSeq toyCrypto ksNoPin (fun _ => [4]) 2).2.fs
      "/f/pin.json" = none := by
  have h := unlock_without_pin_set toyCrypto_good ksNoPin (fun _ => [4])
    2 rfl rfl rfl (by decide)
  exact ⟨(h.1 1 (by decide) (by decide)).1, h.2.1,
    h.2.2 "/f/pin.json" (by decide)⟩

theorem verify_file_reads {C : Crypto} (hC : C.Good) (ks : KS) (p' : String)
    (ct k : Bytes)
    (h1 : Storage.read ks.fs p' = some ct)
    (h2 : Storage.read ks.fs (p' ++ ".sig") =
      some (C.ecSign k (C.sha256 ct))) :
    KS.verify_file C ks p' (some k) = .ok ct := by
  unfold KS.verify_file
  simp [h1, h2, hC.parse_sign, hC.verify_sign]

theorem set_pin_good {C : Crypto} (hC : C.Good) (ks : KS) (pin : Bytes)
    (hleft : 0 < ks.state.pin_attempts_left - 1) :
    KS.set_pin C ks pin =
      (.ok (), { ks with
        state := { ks.state with
          pin := some (hexlify (C.hmac ks.keys.hmacKey pin))
          pin_attempts_left := ks.state.pin_attempts_max }
        is_locked_flag := false
        fs := persist C ks.path ks.keys.ecdsa
            { ks.state with
              pin := some (hexlify (C.hmac ks.keys.hmacKey pin))
              pin_attempts_left := ks.state.pin_attempts_max }
            (persist C ks.path ks.keys.ecdsa
              { ks.state with
                pin := some (hexlify (C.hmac ks.keys.hmacKey pin))
                pin_attempts_left := ks.state.pin_attempts_left - 1 }
              (persist C ks.path ks.keys.ecdsa
                { ks.state with
                  pin := some (hexlify (C.hmac ks.keys.hmacKey pin)) }
                ks.fs))
        keys := ks.keys.update (derive_keys C ks.keys.secret (some pin)) }) := by
  unfold KS.set_pin
  simp only [save_state_good hC]
  exact unlock_correct_eq hC _ pin hleft rfl

theorem load_good {C : Crypto} (hC : C.Good) (ks : KS) (m ct ae ec : Bytes)
    (hlk : ks.is_locked = false)
    (hpa : ks.keys.pin_aes = some ae)
    (hpe : ks.keys.pin_ecdsa = some ec)
    (hct : Storage.read ks.fs (ks.path ++ "/reckless") = some ct)
    (hsg : Storage.read ks.fs (ks.path ++ "/reckless.sig") =
      some (C.ecSign ec (C.sha256 ct)))
    (hdec : C.decrypt ct ae = m)
    (hstrip : C.strip m = m)
    (hvalid : C.mnemonicValid m = true) :
    (KS.load C ks).1 = .ok () ∧ (KS.load C ks).2.mnemonic = some m := by
  unfold KS.load KS.load_mnemonic
  simp [hlk, file_exists, hct, hpa, hpe, hdec, hstrip, hvalid,
    verify_file_reads hC ks (ks.path ++ "/reckless") ct ec hct
      (by rw [rk_sig_eq]; exact hsg)]

/-- C5: for every stored mnemonic, `change_pin(old, new)` decrypts and
verifies the existing reckless blob under the old PIN-bound keys and
rewrites it encrypted and signed under the new PIN-bound keys, so that a
subsequent `unlock(new)` followed by `load()` restores the original
mnemonic unchanged, while `unlock(old)` after the change raises
`PinError`. -/
theorem change_pin_reencrypts_vault {C : Crypto} (hC : C.Good) (ks : KS)
    (old_pin new_pin m : Bytes)
    (hhk : ks.keys.hmacKey = C.sha256 (bHmac ++ ks.keys.secret))
    (hpin : ks.state.pin = some (hexlify (C.hmac ks.keys.hmacKey old_pin)))
    (htag : hexlify (C.hmac ks.keys.hmacKey new_pin) ≠
      hexlify (C.hmac ks.keys.hmacKey old_pin))
    (hleft : 1 < ks.state.pin_attempts_left)
    (hmax : 1 < ks.state.pin_attempts_max)
    (hstrip : C.strip m = m)
    (hvalid : C.mnemonicValid m = true)
    (hct : Storage.read ks.fs (ks.path ++ "/reckless") =
      some (C.encrypt m (pinAes C ks.keys.secret old_pin)))
    (hsig : Storage.read ks.fs (ks.path ++ "/reckless.sig") =
      some (C.ecSign (pinEc C ks.keys.secret old_pin)
        (C.sha256 (C.encrypt m (pinAes C ks.keys.secret old_pin))))) :
    (KS.change_pin C ks old_pin new_pin).1 = .ok () ∧
    (KS.unlock C (KS.change_pin C ks old_pin new_pin).2 new_pin).1 =
      .ok () ∧
    (KS.load C (KS.unlock C (KS.change_pin C ks old_pin new_pin).2
      new_pin).2).1 = .ok () ∧
    (KS.load C (KS.unlock C (KS.change_pin C ks old_pin new_pin).2
      new_pin).2).2.mnemonic = some m ∧
    (KS.unlock C (KS.change_pin C ks old_pin new_pin).2 old_pin).1 =
      .error (.pin (ks.state.pin_attempts_max - 1)
        ks.state.pin_attempts_max) := by
  have hu1 := unlock_correct_eq hC ks old_pin (by omega) hpin
  have kpe1 : (ks.keys.update
      (derive_keys C ks.keys.secret (some old_pin))).pin_ecdsa =
      some (pinEc C ks.keys.secret old_pin) := rfl
  have kpa1 : (ks.keys.update
      (derive_keys C ks.keys.secret (some old_pin))).pin_aes =
      some (pinAes C ks.keys.secret old_pin) := rfl
  have ksec1 : (ks.keys.update
      (derive_keys C ks.keys.secret (some old_pin))).secret =
      ks.keys.secret := rfl
  have kpa2 : ((ks.keys.update
      (derive_keys C ks.keys.secret (some old_pin))).update
      (derive_keys C ks.keys.secret (some new_pin))).pin_aes =
      some (pinAes C ks.keys.secret new_pin) := rfl
  have kpe2 : ((ks.keys.update
      (derive_keys C ks.keys.secret (some old_pin))).update
      (derive_keys C ks.keys.secret (some new_pin))).pin_ecdsa =
      some (pinEc C ks.keys.secret new_pin) := rfl
  have f1 : Storage.read (persist C ks.path ks.keys.ecdsa
      { ks.state with pin_attempts_left := ks.state.pin_attempts_max }
      (persist C ks.path ks.keys.ecdsa
        { ks.state with
          pin_attempts_left := ks.state.pin_attempts_left - 1 } ks.fs))
      (ks.path ++ "/reckless") =
      some (C.encrypt m (pinAes C ks.keys.secret old_pin)) := by
    rw [read_persist_other C ks.path ks.keys.ecdsa _ _ "/reckless"
        (by decide) (by decide),
      read_persist_other C ks.path ks.keys.ecdsa _ _ "/reckless"
        (by decide) (by decide)]
    exact hct
  have f2 : Storage.read (persist C ks.path ks.keys.ecdsa
      { ks.state with pin_attempts_left := ks.state.pin_attempts_max }
      (persist C ks.path ks.keys.ecdsa
        { ks.state with
          pin_attempts_left := ks.state.pin_attempts_left - 1 } ks.fs))
      (ks.path ++ "/reckless.sig") =
      some (C.ecSign (pinEc C ks.keys.secret old_pin)
        (C.sha256 (C.encrypt m (pinAes C ks.keys.secret old_pin)))) := by
    rw [read_persist_other C ks.path ks.keys.ecdsa _ _ "/reckless.sig"
        (by decide) (by decide),
      read_persist_other C ks.path ks.keys.ecdsa _ _ "/reckless.sig"
        (by decide) (by decide)]
    exact hsig
  have hcp : ∃ kf : KS,
      KS.change_pin C ks old_pin new_pin = (.ok (), kf) ∧
      kf.state =
        { pin := some (hexlify
            (C.hmac (C.sha256 (bHmac ++ ks.keys.secret)) new_pin))
          pin_attempts_left := ks.state.pin_attempts_max
          pin_attempts_max := ks.state.pin_attempts_max } ∧
      kf.keys.secret = ks.keys.secret ∧
      kf.keys.hmacKey = C.sha256 (bHmac ++ ks.keys.secret) ∧
      Storage.read kf.fs (kf.path ++ "/reckless") =
        some (C.encrypt m (pinAes C ks.keys.secret new_pin)) ∧
      Storage.read kf.fs (kf.path ++ "/reckless.sig") =
        some (C.ecSign (pinEc C ks.keys.secret new_pin)
          (C.sha256 (C.encrypt m (pinAes C ks.keys.secret new_pin)))) := by
    have hv1 : KS.verify_file C
        { ks with
          state :=
            { ks.state with pin_attempts_left := ks.state.pin_attempts_max }
          is_locked_flag := false
          fs := persist C ks.path ks.keys.ecdsa
              { ks.state with
                pin_attempts_left := ks.state.pin_attempts_max }
              (persist C ks.path ks.keys.ecdsa
                { ks.state with
                  pin_attempts_left := ks.state.pin_attempts_left - 1 }
                ks.fs)
          keys := ks.keys.update (derive_keys C ks.keys.secret (some old_pin)) }
        (ks.path ++ "/reckless") (some (pinEc C ks.keys.secret old_pin)) =
        .ok (C.encrypt m (pinAes C ks.keys.secret old_pin)) :=
      verify_file_reads hC _ _ _ _ f1 (by rw [rk_sig_eq]; exact f2)
    unfold KS.change_pin
    simp only [hu1, file_exists, f1, kpe1, kpa1, Option.isSome_some,
      hv1, hC.decrypt_encrypt, if_true]
    rw [set_pin_good hC]
    on_goal 2 =>
      show (0 : Int) < ks.state.pin_attempts_max - 1
      omega
    simp only [ksec1, kpa2, kpe2]
    refine ⟨_, rfl, rfl, rfl, rfl, ?_, ?_⟩
    · dsimp only
      rw [Storage.read_write_ne _ _ _ _ (append_ne ks.path (by decide)),
        Storage.read_write_self]
    · dsimp only
      rw [Storage.read_write_self]
  obtain ⟨kf, h1, hstate, hsec, hkhm, hrk, hrs⟩ := hcp
  have hl3 : 0 < kf.state.pin_attempts_left - 1 := by
    rw [hstate]
    show (0 : Int) < ks.state.pin_attempts_max - 1
    omega
  have hp3 : kf.state.pin =
      some (hexlify (C.hmac kf.keys.hmacKey new_pin)) := by
    rw [hstate, hkhm]
  have hu3 := unlock_correct_eq hC kf new_pin hl3 hp3
  have htag' : hexlify (C.hmac (C.sha256 (bHmac ++ ks.keys.secret)) new_pin)
      ≠ hexlify (C.hmac (C.sha256 (bHmac ++ ks.keys.secret)) old_pin) := by
    rw [← hhk]
    exact htag
  have hne5 : kf.state.pin ≠
      some (hexlify (C.hmac kf.keys.hmacKey old_pin)) := by
    rw [hstate, hkhm]
    intro hcontra
    exact htag' (Option.some.inj hcontra)
  have hu5 := unlock_wrong_eq hC kf old_pin hl3 hne5
  have hld : (KS.load C (KS.unlock C kf new_pin).2).1 = .ok () ∧
      (KS.load C (KS.unlock C kf new_pin).2).2.mnemonic = some m := by
    rw [hu3]
    refine load_good hC _ m
      (C.encrypt m (pinAes C ks.keys.secret new_pin))
      (pinAes C ks.keys.secret new_pin)
      (pinEc C ks.keys.secret new_pin)
      ?_ ?_ ?_ ?_ ?_ (hC.decrypt_encrypt m _) hstrip hvalid
    · simp [KS.is_locked]
    · simp [Keys.update, derive_keys, hsec, pinAes, pinKey]
    · simp [Keys.update, derive_keys, hsec, pinEc, pinKey]
    · dsimp only
      rw [read_persist_other C kf.path _ _ _ "/reckless"
          (by decide) (by decide),
        read_persist_other C kf.path _ _ _ "/reckless"
          (by decide) (by decide)]
      exact hrk
    · dsimp only
      rw [read_persist_other C kf.path _ _ _ "/reckless.sig"
          (by decide) (by decide),
        read_persist_other C kf.path _ _ _ "/reckless.sig"
          (by decide) (by decide)]
      exact hrs
  refine ⟨by rw [h1], ?_, ?_, ?_, ?_⟩
  · simp only [h1]
    rw [hu3]
  · simp only [h1]
    exact hld.1
  · simp only [h1]
    exact hld.2
  · simp only [h1]
    rw [hu5]
    simp only [hstate]

/-- Witness for C5: changing the PIN of `ksCp` from `[1, 2]` to `[4, 5]`
keeps the stored mnemonic `[8, 8]` recoverable under the new PIN, and the
old PIN stops working. -/
theorem change_pin_reencrypts_vault_witness :
    (KS.change_pin toyCrypto ksCp [1, 2] [4, 5]).1 = .ok () ∧
    (KS.load toyCrypto (KS.unlock toyCrypto
      (KS.change_pin toyCrypto ksCp [1, 2] [4, 5]).2 [4, 5]).2).2.mnemonic =
      some [8, 8] ∧
    (KS.unlock toyCrypto (KS.change_pin toyCrypto ksCp [1, 2] [4, 5]).2
      [1, 2]).1 = .error (.pin (3 - 1) 3) := by
  have h := change_pin_reencrypts_vault toyCrypto_good ksCp [1, 2] [4, 5]
    [8, 8] rfl rfl (by decide) (by decide) (by decide) rfl rfl
    (by decide) (by decide)
  exact ⟨h.1, h.2.2.2.1, h.2.2.2.2⟩

/-- Witness for C4 at the concrete store `ks0` with its PIN `[1, 2]`. -/
theorem unlock_correct_pin_resets_witness :
    (KS.unlock toyCrypto ks0 [1, 2]).1 = .ok () ∧
    (KS.unlock toyCrypto ks0 [1, 2]).2.state.pin_attempts_left = 3 ∧
    (KS.unlock toyCrypto ks0 [1, 2]).2.is_locked_flag = false ∧
    Storage.read (KS.unlock toyCrypto ks0 [1, 2]).2.fs ("/f" ++ "/pin.json") =
      some (encodeState
        { pin := some tag0
          pin_attempts_left := 3
          pin_attempts_max := 3 }) ∧
    (KS.unlock toyCrypto ks0 [1, 2]).2.keys =
      keys0.update (derive_keys toyCrypto [9] (some [1, 2])) :=
  unlock_correct_pin_resets toyCrypto_good ks0 [1, 2] (by decide) rfl

end FlashKS
